import Mathlib

/-!
# Verification of the `ipblocker` DNS filtering engine

A shallow embedding of the Go package `dnslookup` (reverse-label trie with
per-endpoint subdomain exceptions, list store, client registry, policy
evaluator) and of the REST handlers in package `restapi`, together with
theorems settling the specification claims about them.

Strings are Lean `String`s; the Go `strings` helpers used by the engine
(`ToLower`, `Split`, `TrimSpace`, `Trim`, `Index`) are modelled by
transparent recursive functions over the character list, so that proofs can
compute.  Go maps (`map[string]*Node`, `map[string]bool`,
`map[string]ClientConfig`) are modelled by association lists / lists with
set-insertion; claims are only stated modulo iteration order, which Go does
not fix.  File I/O is modelled by returning the written payload (the saved
domain lines, a flag recording that the client document was rewritten).
-/

namespace DnsLookup

/-! ## Definitions: the embedded data model and operations -/

/-- Model of `strings.ToLower` (character-wise case folding). -/
def lowerStr (s : String) : String := String.mk (s.data.map Char.toLower)

/-- Helper for `strings.Split`: split a character list at a separator,
`acc` holding the (reversed) current field. -/
def splitCharAux (sep : Char) : List Char → List Char → List (List Char)
  | [], acc => [acc.reverse]
  | c :: cs, acc =>
    if c = sep then acc.reverse :: splitCharAux sep cs []
    else splitCharAux sep cs (c :: acc)

/-- Model of `strings.Split(s, sep)` for a one-character separator. -/
def splitChar (sep : Char) (s : String) : List String :=
  (splitCharAux sep s.data []).map String.mk

/-- `strings.Join(parts, ".")`, used to reassemble a domain in
`extractDomainsFromTrie`. -/
def joinDot : List String → String
  | [] => ""
  | [s] => s
  | s :: s2 :: ss => s ++ "." ++ joinDot (s2 :: ss)

/-- Drop characters satisfying `p` from both ends. -/
def trimBoth (p : Char → Bool) (cs : List Char) : List Char :=
  ((cs.dropWhile p).reverse.dropWhile p).reverse

/-- Model of `strings.TrimSpace`. -/
def trimSpace (s : String) : String := String.mk (trimBoth Char.isWhitespace s.data)

def isCommaSpace (c : Char) : Bool := c = ',' || c = ' '

/-- Model of `strings.Trim(s, ", ")`. -/
def trimCommaSpace (s : String) : String := String.mk (trimBoth isCommaSpace s.data)

/-- Model of `strings.HasPrefix(line, "#")` for the one-character prefix
used by the comment filter. -/
def startsWithHash (s : String) : Bool :=
  match s.data with
  | [] => false
  | c :: _ => c = '#'

/-- Model of `strings.Index(s, "!")` (position of the first `!`, `-1` when
absent; byte vs. rune positions agree on sign, which is all the code uses). -/
def indexOfChar (c : Char) : List Char → Int
  | [] => -1
  | x :: xs =>
    if x = c then 0
    else
      let r := indexOfChar c xs
      if r = -1 then -1 else r + 1

/-- `Node` from `dnslookup`: children keyed by label, endpoint flag,
exception-label set.  The Go maps become association lists / lists. -/
inductive Node where
  | mk : List (String × Node) → Bool → List String → Node

def Node.children : Node → List (String × Node)
  | .mk c _ _ => c

def Node.isEndpoint : Node → Bool
  | .mk _ e _ => e

def Node.exceptions : Node → List String
  | .mk _ _ x => x

/-- `NewNode`. -/
def newNode : Node := .mk [] false []

/-- `ReverseDomainParts`: lower-case, split on dots, reverse. -/
def reverseDomainParts (domain : String) : List String :=
  (splitChar '.' (lowerStr domain)).reverse

/-- `ParseDomainWithExceptions`: split an entry at `!` when one occurs past
the first character; the part before it (space-trimmed) is the domain, every
later part is trimmed of spaces and of `", "` and kept when non-empty.
Entries without such a `!` are returned whole with no exceptions. -/
def parseDomainWithExceptions (entry : String) : String × List String :=
  if indexOfChar '!' entry.data > 0 then
    match splitChar '!' entry with
    | [] => (entry, [])
    | p0 :: rest =>
      (trimSpace p0,
        rest.filterMap fun p =>
          let ex := trimCommaSpace (trimSpace p)
          if ex = "" then none else some ex)
  else (entry, [])

/-- Lookup in the children map (`currentNode.Children[part]`). -/
def findChild : List (String × Node) → String → Option Node
  | [], _ => none
  | (k, v) :: rest, key => if k = key then some v else findChild rest key

/-- Update in the children map (`currentNode.Children[part] = node`). -/
def setChild : List (String × Node) → String → Node → List (String × Node)
  | [], key, v => [(key, v)]
  | (k, c) :: rest, key, v =>
    if k = key then (key, v) :: rest else (k, c) :: setChild rest key v

/-- Set-insertion into the exception set
(`currentNode.Exceptions[exception] = true` for each exception). -/
def addExceptions (excs : List String) (new : List String) : List String :=
  new.foldl (fun acc e => if e ∈ acc then acc else acc ++ [e]) excs

/-- The walk of `InsertDomain` over the (already reversed) parts. -/
def insertParts : Node → List String → List String → Node
  | n, [], excs => .mk n.children true (addExceptions n.exceptions excs)
  | n, p :: rest, excs =>
    let child := (findChild n.children p).getD newNode
    .mk (setChild n.children p (insertParts child rest excs)) n.isEndpoint n.exceptions

/-- `InsertDomain`. -/
def insertDomain (root : Node) (domain : String) (exceptions : List String) : Node :=
  insertParts root (reverseDomainParts domain) exceptions

/-- The loop of `IsDomainBlocked`: descend label by label; a missing child
is a non-match; after descending into an endpoint child, the next remaining
label (when there is one) decides via the exception set, else it is a match. -/
def matchParts : Node → List String → Bool
  | _, [] => false
  | n, p :: rest =>
    match findChild n.children p with
    | none => false
    | some child =>
      if child.isEndpoint then
        match rest with
        | [] => true
        | nxt :: _ => !(child.exceptions.contains nxt)
      else matchParts child rest

/-- `IsDomainBlocked`. -/
def isDomainBlocked (root : Node) (domain : String) : Bool :=
  matchParts root (reverseDomainParts domain)

/-- `IsDomainAllowed` (same logic as `IsDomainBlocked`). -/
def isDomainAllowed (root : Node) (domain : String) : Bool :=
  isDomainBlocked root domain

/-- The insertion loops of `LoadDomainList` / `CreateList` / `UpdateList`:
insert a list of parsed `(domain, exceptions)` entries into a root. -/
def insertEntries (root : Node) (entries : List (String × List String)) : Node :=
  entries.foldl (fun n e => insertDomain n e.1 e.2) root

/-- A predicate holding at a node and, recursively, at every descendant. -/
inductive AllNodes (P : Node → Prop) : Node → Prop where
  | intro : ∀ n, P n → (∀ c ∈ n.children, AllNodes P c.2) → AllNodes P n

/-- Exception labels live only on endpoint nodes. -/
def excOnEndpoint (m : Node) : Prop := m.exceptions ≠ [] → m.isEndpoint = true

/-- `FormatDomainWithExceptions`: append ` !e0, !e1, …` to the domain. -/
def formatDomainWithExceptions (domain : String) (exceptions : List String) : String :=
  match exceptions with
  | [] => domain
  | e0 :: rest => rest.foldl (fun acc e => acc ++ ", !" ++ e) (domain ++ " !" ++ e0)

mutual

/-- `extractDomainsFromTrie`: DFS emitting one formatted entry per endpoint
node (`pre` is the reversed-label path so far), then the children. -/
def extractDomainsFromTrie : Node → List String → List String
  | .mk cs e xs, pre =>
    (if e then
      [if xs.length > 0 then
         formatDomainWithExceptions (joinDot pre.reverse) xs
       else joinDot pre.reverse]
     else []) ++ extractChildren cs pre

/-- The loop of `extractDomainsFromTrie` over the children map. -/
def extractChildren : List (String × Node) → List String → List String
  | [], _ => []
  | (part, child) :: rest, pre =>
    extractDomainsFromTrie child (pre ++ [part]) ++ extractChildren rest pre

end

/-- `ClientConfig` (stored form; the `IP` field of the Go struct is only
populated on output and is carried as the map key here). -/
structure ClientConfig where
  blocklistRefs : List String
  whitelistRefs : List String
  mode : String

/-- `ListContent`. -/
structure ListContent where
  name : String
  type : String
  domains : List String

/-- The in-memory state of `DNSFilter`: the two trie maps and the client
map (directory paths, lock and file system are not part of the state). -/
structure DNSFilter where
  blocklistTries : List (String × Node)
  whitelistTries : List (String × Node)
  clients : List (String × ClientConfig)

/-- Go map read `m[key]`. -/
def lookupAssoc {α : Type} : List (String × α) → String → Option α
  | [], _ => none
  | (k, v) :: rest, key => if k = key then some v else lookupAssoc rest key

/-- Go map write `m[key] = v`. -/
def setAssoc {α : Type} : List (String × α) → String → α → List (String × α)
  | [], key, v => [(key, v)]
  | (k, c) :: rest, key, v =>
    if k = key then (key, v) :: rest else (k, c) :: setAssoc rest key v

/-- Go map `delete(m, key)`. -/
def removeAssoc {α : Type} (m : List (String × α)) (key : String) :
    List (String × α) :=
  m.filter (fun kv => kv.1 ≠ key)

/-- The trie-building loop shared by `CreateList`, `UpdateList` and
`LoadDomainList`: parse each entry and insert it. -/
def buildTrie (domains : List String) : Node :=
  domains.foldl
    (fun root entry =>
      let p := parseDomainWithExceptions entry
      insertDomain root p.1 p.2)
    newNode

/-- `LoadDomainList`, over the file's lines: trim, skip blank and `#`
lines, parse and insert the rest. -/
def loadDomainList (lines : List String) : Node :=
  lines.foldl
    (fun root rawLine =>
      let line := trimSpace rawLine
      if line = "" || startsWithHash line then root
      else
        let p := parseDomainWithExceptions line
        insertDomain root p.1 p.2)
    newNode

/-- The parsed entries of a list file (the non-comment lines of
`LoadDomainList`). -/
def parseFile (lines : List String) : List (String × List String) :=
  lines.filterMap fun rawLine =>
    let line := trimSpace rawLine
    if line = "" || startsWithHash line then none
    else some (parseDomainWithExceptions line)

/-- `GetListContent`. -/
def getListContent (df : DNSFilter) (listName listType : String) :
    Except String ListContent :=
  if listType = "blocklist" then
    match lookupAssoc df.blocklistTries listName with
    | none => .error ("list not found: " ++ listName)
    | some trie => .ok ⟨listName, listType, extractDomainsFromTrie trie []⟩
  else if listType = "whitelist" then
    match lookupAssoc df.whitelistTries listName with
    | none => .error ("list not found: " ++ listName)
    | some trie => .ok ⟨listName, listType, extractDomainsFromTrie trie []⟩
  else .error ("invalid list type: " ++ listType)

/-- `CreateList` (the returned filter is the new in-memory state; the file
write receives `list.domains` unchanged). -/
def createList (df : DNSFilter) (list : ListContent) : Except String DNSFilter :=
  if list.type = "blocklist" then
    match lookupAssoc df.blocklistTries list.name with
    | some _ => .error ("blocklist already exists: " ++ list.name)
    | none =>
      .ok ⟨setAssoc df.blocklistTries list.name (buildTrie list.domains),
        df.whitelistTries, df.clients⟩
  else if list.type = "whitelist" then
    match lookupAssoc df.whitelistTries list.name with
    | some _ => .error ("whitelist already exists: " ++ list.name)
    | none =>
      .ok ⟨df.blocklistTries,
        setAssoc df.whitelistTries list.name (buildTrie list.domains),
        df.clients⟩
  else .error ("invalid list type: " ++ list.type)

/-- `UpdateList`. -/
def updateList (df : DNSFilter) (list : ListContent) : Except String DNSFilter :=
  if list.type = "blocklist" then
    match lookupAssoc df.blocklistTries list.name with
    | none => .error ("list not found: " ++ list.name)
    | some _ =>
      .ok ⟨setAssoc df.blocklistTries list.name (buildTrie list.domains),
        df.whitelistTries, df.clients⟩
  else if list.type = "whitelist" then
    match lookupAssoc df.whitelistTries list.name with
    | none => .error ("list not found: " ++ list.name)
    | some _ =>
      .ok ⟨df.blocklistTries,
        setAssoc df.whitelistTries list.name (buildTrie list.domains),
        df.clients⟩
  else .error ("invalid list type: " ++ list.type)

/-- `removeFromSlice`: keep the elements different from `item`, in order. -/
def removeFromSlice (slice : List String) (item : String) : List String :=
  slice.filter (fun s => s ≠ item)

/-- The loop of `removeListReferencesFromClients`: strip `listName` from the
ref-list of the matching kind in every client; the boolean records whether
any client changed (in Go this triggers `SaveClientConfig`). -/
def repairClients :
    List (String × ClientConfig) → String → String →
      List (String × ClientConfig) × Bool
  | [], _, _ => ([], false)
  | (ip, cfg) :: rest, listName, listType =>
    let r := repairClients rest listName listType
    if listType = "blocklist" then
      let nb := removeFromSlice cfg.blocklistRefs listName
      if nb.length ≠ cfg.blocklistRefs.length then
        ((ip, ⟨nb, cfg.whitelistRefs, cfg.mode⟩) :: r.1, true)
      else ((ip, cfg) :: r.1, r.2)
    else
      let nw := removeFromSlice cfg.whitelistRefs listName
      if nw.length ≠ cfg.whitelistRefs.length then
        ((ip, ⟨cfg.blocklistRefs, nw, cfg.mode⟩) :: r.1, true)
      else ((ip, cfg) :: r.1, r.2)

/-- `DeleteList`: drop the trie, repair the client references; the boolean
is true when the repair rewrote the persisted client document. -/
def deleteList (df : DNSFilter) (listName listType : String) :
    Except String (DNSFilter × Bool) :=
  if listType = "blocklist" then
    match lookupAssoc df.blocklistTries listName with
    | none => .error ("list not found: " ++ listName)
    | some _ =>
      let r := repairClients df.clients listName listType
      .ok (⟨removeAssoc df.blocklistTries listName, df.whitelistTries, r.1⟩, r.2)
  else if listType = "whitelist" then
    match lookupAssoc df.whitelistTries listName with
    | none => .error ("list not found: " ++ listName)
    | some _ =>
      let r := repairClients df.clients listName listType
      .ok (⟨df.blocklistTries, removeAssoc df.whitelistTries listName, r.1⟩, r.2)
  else .error ("invalid list type: " ++ listType)

/-- `AddDomains`: insert into the existing trie, re-enumerate, save; the
returned list is the payload handed to `SaveDomainList`. -/
def addDomains (df : DNSFilter) (listName listType : String)
    (domains : List String) : Except String (DNSFilter × List String) :=
  if listType = "blocklist" then
    match lookupAssoc df.blocklistTries listName with
    | none => .error ("list not found: " ++ listName)
    | some trie =>
      let trie2 := domains.foldl
        (fun t entry =>
          let p := parseDomainWithExceptions entry
          insertDomain t p.1 p.2) trie
      let allDomains := extractDomainsFromTrie trie2 []
      .ok (⟨setAssoc df.blocklistTries listName trie2, df.whitelistTries,
        df.clients⟩, allDomains)
  else if listType = "whitelist" then
    match lookupAssoc df.whitelistTries listName with
    | none => .error ("list not found: " ++ listName)
    | some trie =>
      let trie2 := domains.foldl
        (fun t entry =>
          let p := parseDomainWithExceptions entry
          insertDomain t p.1 p.2) trie
      let allDomains := extractDomainsFromTrie trie2 []
      .ok (⟨df.blocklistTries, setAssoc df.whitelistTries listName trie2,
        df.clients⟩, allDomains)
  else .error ("invalid list type: " ++ listType)

/-- The rebuild loop of `RemoveDomains`: walk the enumerated current
entries; entries whose base domain is in the removal set are skipped, the
others are re-inserted and appended verbatim to the remaining list. -/
def removeDomainsLoop (basesToRemove : List String) :
    List String → Node × List String → Node × List String
  | [], acc => acc
  | entry :: rest, acc =>
    let p := parseDomainWithExceptions entry
    if p.1 ∈ basesToRemove then removeDomainsLoop basesToRemove rest acc
    else
      removeDomainsLoop basesToRemove rest
        (insertDomain acc.1 p.1 p.2, acc.2 ++ [entry])

/-- `RemoveDomains`: rebuild from the enumerated current entries minus the
requested base domains; the returned list is the payload handed to
`SaveDomainList`. -/
def removeDomains (df : DNSFilter) (listName listType : String)
    (domains : List String) : Except String (DNSFilter × List String) :=
  if listType = "blocklist" then
    match lookupAssoc df.blocklistTries listName with
    | none => .error ("list not found: " ++ listName)
    | some trie =>
      let currentDomains := extractDomainsFromTrie trie []
      let basesToRemove := domains.map (fun d => (parseDomainWithExceptions d).1)
      let r := removeDomainsLoop basesToRemove currentDomains (newNode, [])
      .ok (⟨setAssoc df.blocklistTries listName r.1, df.whitelistTries,
        df.clients⟩, r.2)
  else if listType = "whitelist" then
    match lookupAssoc df.whitelistTries listName with
    | none => .error ("list not found: " ++ listName)
    | some trie =>
      let currentDomains := extractDomainsFromTrie trie []
      let basesToRemove := domains.map (fun d => (parseDomainWithExceptions d).1)
      let r := removeDomainsLoop basesToRemove currentDomains (newNode, [])
      .ok (⟨df.blocklistTries, setAssoc df.whitelistTries listName r.1,
        df.clients⟩, r.2)
  else .error ("invalid list type: " ++ listType)

/-- `GetClientByIP`. -/
def getClientByIP (df : DNSFilter) (ip : String) : Except String ClientConfig :=
  match lookupAssoc df.clients ip with
  | none => .error ("client not found: " ++ ip)
  | some cfg => .ok cfg

/-- `validateListReferences`. -/
def validateListReferences (df : DNSFilter) (client : ClientConfig) :
    Except String Unit :=
  match client.blocklistRefs.find?
      (fun n => (lookupAssoc df.blocklistTries n).isNone) with
  | some n => .error ("referenced blocklist not found: " ++ n)
  | none =>
    match client.whitelistRefs.find?
        (fun n => (lookupAssoc df.whitelistTries n).isNone) with
    | some n => .error ("referenced whitelist not found: " ++ n)
    | none => .ok ()

/-- `UpdateClient` (the target `ip` is the map key; handlers override the
body's IP from the URL). -/
def updateClient (df : DNSFilter) (ip : String) (client : ClientConfig) :
    Except String DNSFilter :=
  match lookupAssoc df.clients ip with
  | none => .error ("client not found: " ++ ip)
  | some _ =>
    match validateListReferences df client with
    | .error e => .error e
    | .ok _ =>
      if client.mode = "blocklist" || client.mode = "whitelist" then
        .ok ⟨df.blocklistTries, df.whitelistTries, setAssoc df.clients ip client⟩
      else .error ("invalid mode: " ++ client.mode)

/-- `DeleteClient`. -/
def deleteClient (df : DNSFilter) (ip : String) : Except String DNSFilter :=
  match lookupAssoc df.clients ip with
  | none => .error ("client not found: " ++ ip)
  | some _ => .ok ⟨df.blocklistTries, df.whitelistTries, removeAssoc df.clients ip⟩

/-- The blocklist-mode loop of `CheckDomain`: missing tries are skipped; a
match denies (false); exhaustion allows (true). -/
def checkBlocklistRefs : List String → List (String × Node) → String → Bool
  | [], _, _ => true
  | n :: rest, tries, domain =>
    match lookupAssoc tries n with
    | none => checkBlocklistRefs rest tries domain
    | some trie =>
      if isDomainBlocked trie domain then false
      else checkBlocklistRefs rest tries domain

/-- The whitelist-mode loop of `CheckDomain`: missing tries are skipped; a
match allows (true); exhaustion denies (false). -/
def checkWhitelistRefs : List String → List (String × Node) → String → Bool
  | [], _, _ => false
  | n :: rest, tries, domain =>
    match lookupAssoc tries n with
    | none => checkWhitelistRefs rest tries domain
    | some trie =>
      if isDomainAllowed trie domain then true
      else checkWhitelistRefs rest tries domain

/-- `CheckDomain`: unknown client denies; blocklist mode denies exactly on a
loaded match; whitelist mode allows exactly on a loaded match; any other
mode denies. -/
def checkDomain (df : DNSFilter) (clientIP domain : String) : Bool :=
  match lookupAssoc df.clients clientIP with
  | none => false
  | some cfg =>
    if cfg.mode = "blocklist" then
      checkBlocklistRefs cfg.blocklistRefs df.blocklistTries domain
    else if cfg.mode = "whitelist" then
      checkWhitelistRefs cfg.whitelistRefs df.whitelistTries domain
    else false

/-- The observable part of an HTTP response: status code and, when an error
is sent, the message carried in the `{"error": …}` body. -/
structure HttpResponse where
  status : Nat
  error : Option String

def kindValid (listType : String) : Bool :=
  listType = "blocklist" || listType = "whitelist"

/-- `getListContent` handler: invalid kind 400, engine error 404, else 200. -/
def getListContentHandler (df : DNSFilter) (listType listName : String) :
    HttpResponse :=
  if kindValid listType then
    match getListContent df listName listType with
    | .error e => ⟨404, some e⟩
    | .ok _ => ⟨200, none⟩
  else ⟨400, some "Invalid list type"⟩

/-- `updateList` handler: name and type are overridden from the URL; any
engine error is sent as 400. -/
def updateListHandler (df : DNSFilter) (listType listName : String)
    (body : ListContent) : HttpResponse :=
  if kindValid listType then
    match updateList df ⟨listName, listType, body.domains⟩ with
    | .error e => ⟨400, some e⟩
    | .ok _ => ⟨200, none⟩
  else ⟨400, some "Invalid list type"⟩

/-- `deleteList` handler: any engine error is sent as 400, success is 204. -/
def deleteListHandler (df : DNSFilter) (listType listName : String) :
    HttpResponse :=
  if kindValid listType then
    match deleteList df listName listType with
    | .error e => ⟨400, some e⟩
    | .ok _ => ⟨204, none⟩
  else ⟨400, some "Invalid list type"⟩

/-- `addDomains` handler: any engine error is sent as 400. -/
def addDomainsHandler (df : DNSFilter) (listType listName : String)
    (domains : List String) : HttpResponse :=
  if kindValid listType then
    match addDomains df listName listType domains with
    | .error e => ⟨400, some e⟩
    | .ok _ => ⟨200, none⟩
  else ⟨400, some "Invalid list type"⟩

/-- `removeDomains` handler: any engine error is sent as 400. -/
def removeDomainsHandler (df : DNSFilter) (listType listName : String)
    (domains : List String) : HttpResponse :=
  if kindValid listType then
    match removeDomains df listName listType domains with
    | .error e => ⟨400, some e⟩
    | .ok _ => ⟨200, none⟩
  else ⟨400, some "Invalid list type"⟩

/-- `getClientByIP` handler: engine error is sent as 404. -/
def getClientByIPHandler (df : DNSFilter) (ip : String) : HttpResponse :=
  match getClientByIP df ip with
  | .error e => ⟨404, some e⟩
  | .ok _ => ⟨200, none⟩

/-- `updateClient` handler: the body's IP is overridden from the URL; any
engine error is sent as 400. -/
def updateClientHandler (df : DNSFilter) (ip : String) (body : ClientConfig) :
    HttpResponse :=
  match updateClient df ip body with
  | .error e => ⟨400, some e⟩
  | .ok _ => ⟨200, none⟩

/-- `deleteClient` handler: any engine error is sent as 400, success 204. -/
def deleteClientHandler (df : DNSFilter) (ip : String) : HttpResponse :=
  match deleteClient df ip with
  | .error e => ⟨400, some e⟩
  | .ok _ => ⟨204, none⟩

/-- What the repair does to one stored policy: strip the name from the
matching kind's ref-list, keep everything else. -/
def repairTransform (listName listType : String) (cfg : ClientConfig) :
    ClientConfig :=
  if listType = "blocklist" then
    ⟨removeFromSlice cfg.blocklistRefs listName, cfg.whitelistRefs, cfg.mode⟩
  else
    ⟨cfg.blocklistRefs, removeFromSlice cfg.whitelistRefs listName, cfg.mode⟩

/-- The ref-list of the kind being deleted. -/
def refsOfKind (listType : String) (cfg : ClientConfig) : List String :=
  if listType = "blocklist" then cfg.blocklistRefs else cfg.whitelistRefs

/-- The ref-list of the other kind. -/
def refsOfOther (listType : String) (cfg : ClientConfig) : List String :=
  if listType = "blocklist" then cfg.whitelistRefs else cfg.blocklistRefs

/-- The loaded trie of the kind addressed by a request. -/
def lookupTrieOfKind (df : DNSFilter) (listType listName : String) :
    Option Node :=
  if listType = "blocklist" then lookupAssoc df.blocklistTries listName
  else if listType = "whitelist" then lookupAssoc df.whitelistTries listName
  else none

/-- Whether the trie has an endpoint at the end of the path `ps`. -/
def endpointAt : Node → List String → Bool
  | n, [] => n.isEndpoint
  | n, p :: rest =>
    match findChild n.children p with
    | none => false
    | some c => endpointAt c rest

/-! ## Theorems -/

theorem mk_append (a b : List Char) :
    String.mk a ++ String.mk b = String.mk (a ++ b) := rfl

theorem splitCharAux_ne_nil (sep : Char) (cs acc : List Char) :
    splitCharAux sep cs acc ≠ [] := by
  induction cs generalizing acc with
  | nil => simp [splitCharAux]
  | cons c cs ih =>
    simp only [splitCharAux]
    split
    · simp
    · exact ih _

theorem joinDot_cons (s : String) (ss : List String) (h : ss ≠ []) :
    joinDot (s :: ss) = s ++ "." ++ joinDot ss := by
  cases ss with
  | nil => exact absurd rfl h
  | cons t ts => rfl

theorem joinDot_splitCharAux (cs acc : List Char) :
    joinDot ((splitCharAux '.' cs acc).map String.mk) =
      String.mk (acc.reverse ++ cs) := by
  induction cs generalizing acc with
  | nil => simp [splitCharAux, joinDot]
  | cons c cs ih =>
    simp only [splitCharAux]
    split
    · rename_i hc
      subst hc
      rw [List.map_cons,
        joinDot_cons _ _ (by simp [splitCharAux_ne_nil]), ih]
      apply String.ext
      simp [String.data_append]
    · rw [ih]
      simp

/-- Splitting on dots and rejoining with dots restores any string. -/
theorem joinDot_splitChar (s : String) :
    joinDot (splitChar '.' s) = s := by
  have h := joinDot_splitCharAux s.data []
  simpa [splitChar] using h

theorem splitCharAux_append_no_sep (sep : Char) (xs ys acc : List Char)
    (h : sep ∉ xs) :
    splitCharAux sep (xs ++ ys) acc = splitCharAux sep ys (xs.reverse ++ acc) := by
  induction xs generalizing acc with
  | nil => simp
  | cons x xs ih =>
    simp only [List.cons_append, splitCharAux]
    rw [if_neg (by rintro rfl; exact h (by simp))]
    exact (ih _ (fun hm => h (by simp [hm]))).trans (by simp)

theorem splitChar_single_no_dot (l : String) (h : '.' ∉ l.data) :
    splitChar '.' l = [l] := by
  have h2 := splitCharAux_append_no_sep '.' l.data [] [] h
  simp only [List.append_nil] at h2
  simp [splitChar, h2, splitCharAux]

/-- Splitting a dot-joined list of dot-free labels recovers the labels. -/
theorem splitChar_joinDot (ls : List String) (hne : ls ≠ [])
    (h : ∀ l ∈ ls, '.' ∉ l.data) :
    splitChar '.' (joinDot ls) = ls := by
  induction ls with
  | nil => exact absurd rfl hne
  | cons l ls ih =>
    cases ls with
    | nil => exact splitChar_single_no_dot l (h l (by simp))
    | cons l2 ls2 =>
      rw [joinDot_cons _ _ (by simp)]
      have hdata : (l ++ "." ++ joinDot (l2 :: ls2)).data =
          l.data ++ '.' :: (joinDot (l2 :: ls2)).data := by
        simp [String.data_append]
      unfold splitChar
      rw [hdata, splitCharAux_append_no_sep '.' l.data _ [] (h l (by simp))]
      simp only [List.append_nil, splitCharAux, if_pos rfl]
      have ihe : splitChar '.' (joinDot (l2 :: ls2)) = l2 :: ls2 :=
        ih (by simp) (fun x hx => h x (by simp [hx]))
      simp only [splitChar] at ihe
      simp [ihe]

theorem lowerStr_append (a b : String) :
    lowerStr (a ++ b) = lowerStr a ++ lowerStr b := by
  apply String.ext
  simp [lowerStr, String.data_append]

theorem lowerStr_dot : lowerStr "." = "." := by decide

theorem lowerStr_joinDot (ls : List String) :
    lowerStr (joinDot ls) = joinDot (ls.map lowerStr) := by
  induction ls with
  | nil => decide
  | cons l ls ih =>
    cases ls with
    | nil => rfl
    | cons l2 ls2 =>
      have hL : joinDot (l :: l2 :: ls2) = l ++ "." ++ joinDot (l2 :: ls2) :=
        joinDot_cons _ _ (by simp)
      have hR : joinDot (lowerStr l :: List.map lowerStr (l2 :: ls2)) =
          lowerStr l ++ "." ++ joinDot (List.map lowerStr (l2 :: ls2)) :=
        joinDot_cons _ _ (by simp)
      rw [hL, lowerStr_append, lowerStr_append, lowerStr_dot, List.map_cons,
        hR, ih]

/-- For case-folded dot-free labels, `ReverseDomainParts` of their dot-join
is the reversed label list. -/
theorem reverseDomainParts_joinDot (ls : List String) (hne : ls ≠ [])
    (h : ∀ l ∈ ls, '.' ∉ l.data ∧ lowerStr l = l) :
    reverseDomainParts (joinDot ls) = ls.reverse := by
  unfold reverseDomainParts
  rw [lowerStr_joinDot]
  have hmap : ls.map lowerStr = ls :=
    List.map_congr_left (fun l hl => (h l hl).2) |>.trans (List.map_id ls)
  rw [hmap, splitChar_joinDot ls hne (fun l hl => (h l hl).1)]

theorem isEndpoint_insertParts_cons (n : Node) (p : String) (rest excs : List String) :
    (insertParts n (p :: rest) excs).isEndpoint = n.isEndpoint := rfl

theorem addExceptions_nil_single (x : String) : addExceptions [] [x] = [x] := by
  simp [addExceptions]

theorem insertParts_newNode_nil (excs : List String) :
    insertParts newNode [] excs = Node.mk [] true (addExceptions [] excs) := rfl

theorem insertParts_newNode_cons (p : String) (rest excs : List String) :
    insertParts newNode (p :: rest) excs =
      Node.mk [(p, insertParts newNode rest excs)] false [] := rfl

theorem matchParts_mk_single (p : String) (c : Node) (e : Bool)
    (xs : List String) (ts : List String) :
    matchParts (Node.mk [(p, c)] e xs) (p :: ts) =
      (if c.isEndpoint then
        (match ts with
         | [] => true
         | q :: _ => !(c.exceptions.contains q))
      else matchParts c ts) := by
  cases hc : c.isEndpoint <;> cases ts <;>
    simp [matchParts, findChild, Node.children, hc]

/-- Matching against the trie holding the single path `ps`: after consuming
`ps`, an empty remainder is a match, otherwise the next label decides
against the exception set. -/
theorem matchParts_insertParts_newNode (ps qs excs : List String) (hps : ps ≠ []) :
    matchParts (insertParts newNode ps excs) (ps ++ qs) =
      (match qs with
       | [] => true
       | q :: _ => !((addExceptions [] excs).contains q)) := by
  induction ps with
  | nil => exact absurd rfl hps
  | cons p rest ih =>
    rw [insertParts_newNode_cons, List.cons_append, matchParts_mk_single]
    cases rest with
    | nil =>
      rw [insertParts_newNode_nil,
        if_pos (by simp [Node.isEndpoint])]
      simp only [Node.exceptions, List.nil_append]
    | cons p2 rest2 =>
      rw [if_neg (by rw [insertParts_newNode_cons]; simp [Node.isEndpoint])]
      exact ih (by simp)

/-- C1: for the trie built from the single entry with domain `d`
(dot-joined from the case-folded dot-free labels `ds`) and exception label
`x`, `Match` accepts the apex `d` and any immediate subdomain `a.d` with
`a ≠ x`, and rejects the excepted subdomain `x.d` and every deeper name
`deep.x.d` beneath it: the descent crosses the endpoint at `d`, and the next
remaining query label decides against the endpoint's exception set. -/
theorem c1_single_entry_exception_semantics
    (ds : List String) (a x deep : String)
    (hds : ds ≠ [])
    (hlab : ∀ l ∈ ds, '.' ∉ l.data ∧ lowerStr l = l)
    (ha : '.' ∉ a.data ∧ lowerStr a = a)
    (hx : '.' ∉ x.data ∧ lowerStr x = x)
    (hdeep : '.' ∉ deep.data ∧ lowerStr deep = deep)
    (hax : a ≠ x) :
    isDomainBlocked (insertDomain newNode (joinDot ds) [x]) (joinDot ds) = true ∧
    isDomainBlocked (insertDomain newNode (joinDot ds) [x]) (joinDot (a :: ds)) = true ∧
    isDomainBlocked (insertDomain newNode (joinDot ds) [x]) (joinDot (x :: ds)) = false ∧
    isDomainBlocked (insertDomain newNode (joinDot ds) [x])
      (joinDot (deep :: x :: ds)) = false := by
  have hrev : reverseDomainParts (joinDot ds) = ds.reverse :=
    reverseDomainParts_joinDot ds hds hlab
  have hlab_a : ∀ l ∈ a :: ds, '.' ∉ l.data ∧ lowerStr l = l := by
    intro l hl
    rcases List.mem_cons.mp hl with rfl | hl
    · exact ha
    · exact hlab l hl
  have hlab_x : ∀ l ∈ x :: ds, '.' ∉ l.data ∧ lowerStr l = l := by
    intro l hl
    rcases List.mem_cons.mp hl with rfl | hl
    · exact hx
    · exact hlab l hl
  have hlab_dx : ∀ l ∈ deep :: x :: ds, '.' ∉ l.data ∧ lowerStr l = l := by
    intro l hl
    rcases List.mem_cons.mp hl with rfl | hl
    · exact hdeep
    · exact hlab_x l hl
  have hreva : reverseDomainParts (joinDot (a :: ds)) = ds.reverse ++ [a] := by
    rw [reverseDomainParts_joinDot (a :: ds) (by simp) hlab_a]
    simp
  have hrevx : reverseDomainParts (joinDot (x :: ds)) = ds.reverse ++ [x] := by
    rw [reverseDomainParts_joinDot (x :: ds) (by simp) hlab_x]
    simp
  have hrevd : reverseDomainParts (joinDot (deep :: x :: ds)) =
      ds.reverse ++ [x, deep] := by
    rw [reverseDomainParts_joinDot (deep :: x :: ds) (by simp) hlab_dx]
    simp
  have hne : ds.reverse ≠ [] := by simpa using hds
  refine ⟨?_, ?_, ?_, ?_⟩
  · have h := matchParts_insertParts_newNode ds.reverse [] [x] hne
    simp only [List.append_nil] at h
    simp only [isDomainBlocked, insertDomain, hrev, h]
  · have h := matchParts_insertParts_newNode ds.reverse [a] [x] hne
    simp only [isDomainBlocked, insertDomain, hrev, hreva, h,
      addExceptions_nil_single]
    simp [hax]
  · have h := matchParts_insertParts_newNode ds.reverse [x] [x] hne
    simp only [isDomainBlocked, insertDomain, hrev, hrevx, h,
      addExceptions_nil_single]
    simp
  · have h := matchParts_insertParts_newNode ds.reverse [x, deep] [x] hne
    simp only [isDomainBlocked, insertDomain, hrev, hrevd, h,
      addExceptions_nil_single]
    simp

/-- Witness for C1 at the concrete entry `example.com !mail`. -/
theorem c1_witness :
    isDomainBlocked (insertDomain newNode (joinDot ["example", "com"]) ["mail"])
      (joinDot ["example", "com"]) = true ∧
    isDomainBlocked (insertDomain newNode (joinDot ["example", "com"]) ["mail"])
      (joinDot ["tracker", "example", "com"]) = true ∧
    isDomainBlocked (insertDomain newNode (joinDot ["example", "com"]) ["mail"])
      (joinDot ["mail", "example", "com"]) = false ∧
    isDomainBlocked (insertDomain newNode (joinDot ["example", "com"]) ["mail"])
      (joinDot ["deep", "mail", "example", "com"]) = false :=
  c1_single_entry_exception_semantics ["example", "com"] "tracker" "mail" "deep"
    (by decide) (by decide) (by decide) (by decide) (by decide) (by decide)

/-- C6 counterexample: the entry `example.com !MAIL` and its all-lowercase
variant `example.com !mail` give different `Match` results on the query
`mail.example.com`, because exception labels are stored verbatim at insert
while the query label is lower-cased at lookup. -/
theorem c6_counterexample :
    isDomainBlocked (insertDomain newNode "example.com" ["MAIL"])
      "mail.example.com" = true ∧
    isDomainBlocked (insertDomain newNode "example.com" ["mail"])
      "mail.example.com" = false := by
  constructor <;> decide

/-- C6 (amended): matching is case-insensitive in the query and in the
entry's domain — both are lower-cased, so replacing either by any string
with the same case-folding leaves `Match` and the built trie unchanged;
exception labels, by contrast, are compared verbatim. -/
theorem c6_amended_case_insensitivity
    (root : Node) (q1 q2 : String) (hq : lowerStr q1 = lowerStr q2)
    (n : Node) (d1 d2 : String) (excs : List String)
    (hd : lowerStr d1 = lowerStr d2) :
    isDomainBlocked root q1 = isDomainBlocked root q2 ∧
    insertDomain n d1 excs = insertDomain n d2 excs := by
  constructor
  · simp only [isDomainBlocked, reverseDomainParts, hq]
  · simp only [insertDomain, reverseDomainParts, hd]

/-- Witness for the amended C6 at concrete case-variants. -/
theorem c6_amended_witness :
    isDomainBlocked newNode "MAIL.Example.com" =
      isDomainBlocked newNode "mail.example.COM" ∧
    insertDomain newNode "Example.COM" ["mail"] =
      insertDomain newNode "example.com" ["mail"] :=
  c6_amended_case_insensitivity newNode "MAIL.Example.com" "mail.example.COM"
    (by decide) newNode "Example.COM" "example.com" ["mail"] (by decide)

theorem AllNodes.self {P : Node → Prop} {n : Node} (h : AllNodes P n) : P n := by
  cases h with
  | intro _ hp _ => exact hp

theorem AllNodes.child {P : Node → Prop} {n : Node} (h : AllNodes P n) :
    ∀ c ∈ n.children, AllNodes P c.2 := by
  cases h with
  | intro _ _ hc => exact hc

theorem mem_setChild {cs : List (String × Node)} {k : String} {v : Node}
    {c : String × Node} (h : c ∈ setChild cs k v) : c = (k, v) ∨ c ∈ cs := by
  induction cs with
  | nil => simpa [setChild] using h
  | cons hd tl ih =>
    simp only [setChild] at h
    split at h
    · rcases List.mem_cons.mp h with rfl | h
      · exact .inl rfl
      · exact .inr (List.mem_cons_of_mem _ h)
    · rcases List.mem_cons.mp h with rfl | h
      · exact .inr (List.mem_cons_self _ _)
      · rcases ih h with rfl | h
        · exact .inl rfl
        · exact .inr (List.mem_cons_of_mem _ h)

theorem findChild_mem {cs : List (String × Node)} {key : String} {v : Node}
    (h : findChild cs key = some v) : (key, v) ∈ cs := by
  induction cs with
  | nil => simp [findChild] at h
  | cons hd tl ih =>
    simp only [findChild] at h
    split at h
    · rename_i heq
      obtain ⟨k, c⟩ := hd
      simp only at heq
      cases h
      exact heq ▸ List.mem_cons_self _ _
    · exact List.mem_cons_of_mem _ (ih h)

theorem allNodes_excOnEndpoint_newNode : AllNodes excOnEndpoint newNode := by
  refine .intro _ ?_ ?_
  · intro h
    exact absurd rfl h
  · intro c hc
    simp [newNode, Node.children] at hc

theorem allNodes_excOnEndpoint_insertParts (n : Node) (ps excs : List String)
    (h : AllNodes excOnEndpoint n) :
    AllNodes excOnEndpoint (insertParts n ps excs) := by
  induction ps generalizing n with
  | nil =>
    refine .intro _ ?_ ?_
    · intro _
      rfl
    · intro c hc
      exact h.child c hc
  | cons p rest ih =>
    cases n with
    | mk cs e xs =>
      refine .intro _ ?_ ?_
      · intro hx
        exact h.self hx
      · intro c hc
        simp only [insertParts, Node.children] at hc
        rcases mem_setChild hc with rfl | hc
        · cases hfc : findChild cs p with
          | none => simpa [hfc] using ih newNode allNodes_excOnEndpoint_newNode
          | some c0 =>
            have hmem : (p, c0) ∈ cs := findChild_mem hfc
            have hch : AllNodes excOnEndpoint c0 := h.child (p, c0) hmem
            simpa [hfc] using ih c0 hch
        · exact h.child c hc

theorem reverseDomainParts_ne_nil (d : String) : reverseDomainParts d ≠ [] := by
  unfold reverseDomainParts splitChar
  intro h
  rw [List.reverse_eq_nil_iff, List.map_eq_nil_iff] at h
  exact splitCharAux_ne_nil _ _ _ h

theorem isEndpoint_insertDomain (n : Node) (d : String) (excs : List String) :
    (insertDomain n d excs).isEndpoint = n.isEndpoint := by
  unfold insertDomain
  cases hp : reverseDomainParts d with
  | nil => exact absurd hp (reverseDomainParts_ne_nil d)
  | cons p rest => rfl

theorem isEndpoint_insertEntries (n : Node) (entries : List (String × List String)) :
    (insertEntries n entries).isEndpoint = n.isEndpoint := by
  induction entries generalizing n with
  | nil => rfl
  | cons e es ih =>
    simp only [insertEntries, List.foldl_cons] at ih ⊢
    rw [ih, isEndpoint_insertDomain]

theorem allNodes_excOnEndpoint_insertEntries (n : Node)
    (entries : List (String × List String)) (h : AllNodes excOnEndpoint n) :
    AllNodes excOnEndpoint (insertEntries n entries) := by
  induction entries generalizing n with
  | nil => exact h
  | cons e es ih =>
    simp only [insertEntries, List.foldl_cons] at ih ⊢
    exact ih _ (allNodes_excOnEndpoint_insertParts _ _ _ h)

theorem sizeOf_child_lt (n : Node) :
    ∀ c ∈ n.children, sizeOf c.2 < sizeOf n := by
  intro c hc
  cases n with
  | mk cs e xs =>
    simp only [Node.children] at hc
    have h1 : sizeOf c < sizeOf cs := List.sizeOf_lt_of_mem hc
    obtain ⟨k, v⟩ := c
    simp only [Prod.mk.sizeOf_spec] at h1
    simp only [Node.mk.sizeOf_spec]
    omega

theorem allNodes_sizeOf_aux :
    ∀ k (n : Node), sizeOf n ≤ k →
      AllNodes (fun m => ∀ c ∈ m.children, sizeOf c.2 < sizeOf m) n := by
  intro k
  induction k with
  | zero =>
    intro n hn
    cases n with
    | mk cs e xs =>
      simp only [Node.mk.sizeOf_spec] at hn
      omega
  | succ k ih =>
    intro n hn
    refine .intro _ (sizeOf_child_lt n) ?_
    intro c hc
    refine ih c.2 ?_
    have := sizeOf_child_lt n c hc
    omega

/-- Every node's children are structurally smaller: the child relation of
any trie value is well-founded, i.e. the trie is a finite acyclic tree. -/
theorem allNodes_sizeOf (n : Node) :
    AllNodes (fun m => ∀ c ∈ m.children, sizeOf c.2 < sizeOf m) n :=
  allNodes_sizeOf_aux (sizeOf n) n (Nat.le_refl _)

/-- C10: every trie built by any sequence of insertions into a fresh root
satisfies the structural invariants: the root is never an endpoint,
exception labels live only on endpoint nodes, and the child structure is a
finite acyclic tree (every child is structurally smaller). -/
theorem c10_structural_invariants (entries : List (String × List String)) :
    (insertEntries newNode entries).isEndpoint = false ∧
    AllNodes excOnEndpoint (insertEntries newNode entries) ∧
    AllNodes (fun m => ∀ c ∈ m.children, sizeOf c.2 < sizeOf m)
      (insertEntries newNode entries) :=
  ⟨(isEndpoint_insertEntries newNode entries).trans rfl,
   allNodes_excOnEndpoint_insertEntries newNode entries
     allNodes_excOnEndpoint_newNode,
   allNodes_sizeOf _⟩

theorem checkBlocklistRefs_eq_true_iff (refs : List String)
    (tries : List (String × Node)) (domain : String) :
    checkBlocklistRefs refs tries domain = true ↔
      ¬ ∃ n ∈ refs, ∃ t, lookupAssoc tries n = some t ∧
          isDomainBlocked t domain = true := by
  induction refs with
  | nil => simp [checkBlocklistRefs]
  | cons n rest ih =>
    rw [List.exists_mem_cons_iff]
    simp only [checkBlocklistRefs]
    cases hl : lookupAssoc tries n with
    | none =>
      rw [ih]
      simp [hl]
    | some t =>
      by_cases hb : isDomainBlocked t domain = true
      · simp only [hb, if_true]
        simp [hl, hb]
      · simp only [Bool.not_eq_true] at hb
        simp only [hb, Bool.false_eq_true, if_false]
        rw [ih]
        simp [hl, hb]

theorem checkWhitelistRefs_eq_true_iff (refs : List String)
    (tries : List (String × Node)) (domain : String) :
    checkWhitelistRefs refs tries domain = true ↔
      ∃ n ∈ refs, ∃ t, lookupAssoc tries n = some t ∧
          isDomainAllowed t domain = true := by
  induction refs with
  | nil => simp [checkWhitelistRefs]
  | cons n rest ih =>
    rw [List.exists_mem_cons_iff]
    simp only [checkWhitelistRefs]
    cases hl : lookupAssoc tries n with
    | none =>
      rw [ih]
      simp [hl]
    | some t =>
      by_cases hb : isDomainAllowed t domain = true
      · simp only [hb, if_true]
        simp [hl, hb]
      · simp only [Bool.not_eq_true] at hb
        simp only [hb, Bool.false_eq_true, if_false]
        rw [ih]
        simp [hl, hb]

/-- C2: `CheckDomain` denies for an unknown client; in blocklist mode it
denies precisely when some referenced blocklist whose trie is loaded matches
the name (missing tries are skipped), otherwise it allows; in whitelist mode
it allows precisely when some referenced loaded whitelist matches, otherwise
it denies; any other mode denies. -/
theorem c2_check_domain_policy (df : DNSFilter) (ip name : String) :
    (lookupAssoc df.clients ip = none → checkDomain df ip name = false) ∧
    (∀ cfg, lookupAssoc df.clients ip = some cfg →
      (cfg.mode = "blocklist" →
        (checkDomain df ip name = false ↔
          ∃ n ∈ cfg.blocklistRefs, ∃ t,
            lookupAssoc df.blocklistTries n = some t ∧
            isDomainBlocked t name = true)) ∧
      (cfg.mode = "whitelist" →
        (checkDomain df ip name = true ↔
          ∃ n ∈ cfg.whitelistRefs, ∃ t,
            lookupAssoc df.whitelistTries n = some t ∧
            isDomainAllowed t name = true)) ∧
      (cfg.mode ≠ "blocklist" → cfg.mode ≠ "whitelist" →
        checkDomain df ip name = false)) := by
  constructor
  · intro h
    simp [checkDomain, h]
  · intro cfg hcfg
    refine ⟨?_, ?_, ?_⟩
    · intro hmode
      rw [show checkDomain df ip name =
          checkBlocklistRefs cfg.blocklistRefs df.blocklistTries name by
        simp [checkDomain, hcfg, hmode]]
      rw [Bool.eq_false_iff, ne_eq, checkBlocklistRefs_eq_true_iff, not_not]
    · intro hmode
      rw [show checkDomain df ip name =
          checkWhitelistRefs cfg.whitelistRefs df.whitelistTries name by
        simp [checkDomain, hcfg, hmode]]
      exact checkWhitelistRefs_eq_true_iff _ _ _
    · intro h1 h2
      simp [checkDomain, hcfg, h1, h2]

/-- Witness for C2: the empty registry denies an unknown client. -/
theorem c2_witness :
    checkDomain ⟨[], [], []⟩ "10.0.0.99" "example.com" = false :=
  (c2_check_domain_policy ⟨[], [], []⟩ "10.0.0.99" "example.com").1 rfl

/-- C4 counterexample: `DELETE /api/clients/{ip}` on a missing client
answers status 400 (the handler maps every engine error to 400), not the
claimed 404. -/
theorem c4_counterexample :
    (deleteClientHandler ⟨[], [], []⟩ "10.0.0.1").status = 400 ∧
    ¬ (deleteClientHandler ⟨[], [], []⟩ "10.0.0.1").status = 404 := by
  constructor <;> decide

/-- C4 (amended): on a missing target every handler answers with the
`{"error": …}` body, but only the two GET handlers use 404; PUT and DELETE
on a list, POST and DELETE on its domains subresource, and PUT and DELETE on
a client all map the engine's not-found error to 400. -/
theorem c4_amended_not_found_statuses (df : DNSFilter)
    (kind name ip : String) (bodyL : ListContent) (bodyC : ClientConfig)
    (doms : List String)
    (hkind : kind = "blocklist" ∨ kind = "whitelist")
    (hbl : lookupAssoc df.blocklistTries name = none)
    (hwl : lookupAssoc df.whitelistTries name = none)
    (hclient : lookupAssoc df.clients ip = none) :
    getListContentHandler df kind name =
      ⟨404, some ("list not found: " ++ name)⟩ ∧
    updateListHandler df kind name bodyL =
      ⟨400, some ("list not found: " ++ name)⟩ ∧
    deleteListHandler df kind name =
      ⟨400, some ("list not found: " ++ name)⟩ ∧
    addDomainsHandler df kind name doms =
      ⟨400, some ("list not found: " ++ name)⟩ ∧
    removeDomainsHandler df kind name doms =
      ⟨400, some ("list not found: " ++ name)⟩ ∧
    getClientByIPHandler df ip =
      ⟨404, some ("client not found: " ++ ip)⟩ ∧
    updateClientHandler df ip bodyC =
      ⟨400, some ("client not found: " ++ ip)⟩ ∧
    deleteClientHandler df ip =
      ⟨400, some ("client not found: " ++ ip)⟩ := by
  rcases hkind with rfl | rfl <;>
    simp [getListContentHandler, updateListHandler, deleteListHandler,
      addDomainsHandler, removeDomainsHandler, getClientByIPHandler,
      updateClientHandler, deleteClientHandler, getListContent, updateList,
      deleteList, addDomains, removeDomains, getClientByIP, updateClient,
      deleteClient, kindValid, hbl, hwl, hclient]

/-- Witness for the amended C4 on the empty filter state. -/
theorem c4_amended_witness :
    getListContentHandler ⟨[], [], []⟩ "blocklist" "ads" =
      ⟨404, some ("list not found: " ++ "ads")⟩ ∧
    updateListHandler ⟨[], [], []⟩ "blocklist" "ads" ⟨"ads", "blocklist", []⟩ =
      ⟨400, some ("list not found: " ++ "ads")⟩ ∧
    deleteListHandler ⟨[], [], []⟩ "blocklist" "ads" =
      ⟨400, some ("list not found: " ++ "ads")⟩ ∧
    addDomainsHandler ⟨[], [], []⟩ "blocklist" "ads" ["a.com"] =
      ⟨400, some ("list not found: " ++ "ads")⟩ ∧
    removeDomainsHandler ⟨[], [], []⟩ "blocklist" "ads" ["a.com"] =
      ⟨400, some ("list not found: " ++ "ads")⟩ ∧
    getClientByIPHandler ⟨[], [], []⟩ "10.0.0.1" =
      ⟨404, some ("client not found: " ++ "10.0.0.1")⟩ ∧
    updateClientHandler ⟨[], [], []⟩ "10.0.0.1" ⟨[], [], "blocklist"⟩ =
      ⟨400, some ("client not found: " ++ "10.0.0.1")⟩ ∧
    deleteClientHandler ⟨[], [], []⟩ "10.0.0.1" =
      ⟨400, some ("client not found: " ++ "10.0.0.1")⟩ :=
  c4_amended_not_found_statuses ⟨[], [], []⟩ "blocklist" "ads" "10.0.0.1"
    ⟨"ads", "blocklist", []⟩ ⟨[], [], "blocklist"⟩ ["a.com"]
    (Or.inl rfl) rfl rfl rfl

/-- C5 counterexample: entries with an empty label (leading dot) and with a
dotted exception label are parsed to plain pairs — nothing fails — and
`CreateList` accepts them. -/
theorem c5_counterexample :
    parseDomainWithExceptions ".example.com" = (".example.com", []) ∧
    parseDomainWithExceptions "x.com !a.b" = ("x.com", ["a.b"]) ∧
    createList ⟨[], [], []⟩ ⟨"l", "blocklist", [".example.com", "x.com !a.b"]⟩ =
      .ok ⟨[("l", buildTrie [".example.com", "x.com !a.b"])], [], []⟩ := by
  refine ⟨by decide, by decide, ?_⟩
  rfl

/-- C5 (amended): entry parsing is total and performs no validation — every
input yields a `(domain, exceptions)` pair — and `CreateList` succeeds on
arbitrary entries whenever the kind is valid and the name is fresh; no
`BadEntry`-style rejection exists. -/
theorem c5_amended_parse_is_total (df : DNSFilter) (l : ListContent)
    (hfresh : l.type = "blocklist" ∧ lookupAssoc df.blocklistTries l.name = none ∨
      l.type = "whitelist" ∧ lookupAssoc df.whitelistTries l.name = none) :
    (∀ entry : String, ∃ d ex, parseDomainWithExceptions entry = (d, ex)) ∧
    ∃ df', createList df l = .ok df' := by
  refine ⟨fun entry => ⟨(parseDomainWithExceptions entry).1,
    (parseDomainWithExceptions entry).2, rfl⟩, ?_⟩
  rcases hfresh with ⟨ht, hn⟩ | ⟨ht, hn⟩
  · refine ⟨⟨setAssoc df.blocklistTries l.name (buildTrie l.domains),
      df.whitelistTries, df.clients⟩, ?_⟩
    simp [createList, ht, hn]
  · refine ⟨⟨df.blocklistTries,
      setAssoc df.whitelistTries l.name (buildTrie l.domains), df.clients⟩, ?_⟩
    simp [createList, ht, hn]

/-- Witness for the amended C5 on malformed entries. -/
theorem c5_amended_witness :
    (∀ entry : String, ∃ d ex, parseDomainWithExceptions entry = (d, ex)) ∧
    ∃ df', createList ⟨[], [], []⟩
      ⟨"l", "blocklist", ["..", "a..b", "x !p.q"]⟩ = .ok df' :=
  c5_amended_parse_is_total ⟨[], [], []⟩ ⟨"l", "blocklist", ["..", "a..b", "x !p.q"]⟩
    (Or.inl ⟨rfl, rfl⟩)

theorem removeFromSlice_eq_self_of_not_mem {l : List String} {x : String}
    (h : x ∉ l) : removeFromSlice l x = l := by
  rw [removeFromSlice, List.filter_eq_self]
  intro a ha
  simp only [decide_eq_true_eq]
  rintro rfl
  exact h ha

theorem not_mem_removeFromSlice (l : List String) (x : String) :
    x ∉ removeFromSlice l x := by
  simp [removeFromSlice]

theorem length_removeFromSlice_ne_iff (l : List String) (x : String) :
    (removeFromSlice l x).length ≠ l.length ↔ x ∈ l := by
  constructor
  · intro h
    by_contra hx
    exact h (by rw [removeFromSlice_eq_self_of_not_mem hx])
  · intro hx
    have hlt : (removeFromSlice l x).length < l.length := by
      rw [removeFromSlice]
      exact List.length_filter_lt_length_iff_exists.mpr ⟨x, hx, by simp⟩
    omega

theorem repairClients_fst (clients : List (String × ClientConfig))
    (listName listType : String) :
    (repairClients clients listName listType).1 =
      clients.map (fun c => (c.1, repairTransform listName listType c.2)) := by
  induction clients with
  | nil => rfl
  | cons hd tl ih =>
    obtain ⟨ip0, bl, wl, md⟩ := hd
    by_cases ht : listType = "blocklist"
    · subst ht
      by_cases hlen : (removeFromSlice bl listName).length ≠ bl.length
      · simp [repairClients, hlen, ih, repairTransform]
      · have heq : removeFromSlice bl listName = bl :=
          (List.filter_sublist _).eq_of_length (not_not.mp hlen)
        simp [repairClients, hlen, ih, repairTransform, heq]
    · by_cases hlen : (removeFromSlice wl listName).length ≠ wl.length
      · simp [repairClients, ht, hlen, ih, repairTransform]
      · have heq : removeFromSlice wl listName = wl :=
          (List.filter_sublist _).eq_of_length (not_not.mp hlen)
        simp [repairClients, ht, hlen, ih, repairTransform, heq]

theorem repairClients_snd (clients : List (String × ClientConfig))
    (listName listType : String) :
    (repairClients clients listName listType).2 =
      clients.any (fun c =>
        if listType = "blocklist" then decide (listName ∈ c.2.blocklistRefs)
        else decide (listName ∈ c.2.whitelistRefs)) := by
  induction clients with
  | nil => rfl
  | cons hd tl ih =>
    obtain ⟨ip0, bl, wl, md⟩ := hd
    by_cases ht : listType = "blocklist"
    · subst ht
      by_cases hmem : listName ∈ bl
      · have hlen := (length_removeFromSlice_ne_iff bl listName).mpr hmem
        simp [repairClients, hlen, hmem]
      · have hlen : ¬ (removeFromSlice bl listName).length ≠ bl.length := by
          rw [length_removeFromSlice_ne_iff]
          exact hmem
        simp [repairClients, hlen, hmem, ih]
    · by_cases hmem : listName ∈ wl
      · have hlen := (length_removeFromSlice_ne_iff wl listName).mpr hmem
        simp [repairClients, ht, hlen, hmem]
      · have hlen : ¬ (removeFromSlice wl listName).length ≠ wl.length := by
          rw [length_removeFromSlice_ne_iff]
          exact hmem
        simp [repairClients, ht, hlen, hmem, ih]

theorem lookupAssoc_map_value {α β : Type} (f : α → β)
    (l : List (String × α)) (key : String) :
    lookupAssoc (l.map (fun c => (c.1, f c.2))) key =
      (lookupAssoc l key).map f := by
  induction l with
  | nil => rfl
  | cons hd tl ih =>
    obtain ⟨k, v⟩ := hd
    by_cases hk : k = key
    · simp [lookupAssoc, hk]
    · simp [lookupAssoc, hk, ih]

/-- C7: after `DeleteList` succeeds, no stored policy carries the deleted
name in the matching kind's ref-list; each policy's other ref-list and mode
are unchanged, the matching ref-list being exactly the old one with the name
stripped; and the client document is rewritten (the repair saves) precisely
when some stored policy carried the name. -/
theorem c7_delete_list_repairs_clients (df : DNSFilter)
    (listName listType : String) (df' : DNSFilter) (saved : Bool)
    (h : deleteList df listName listType = .ok (df', saved)) :
    (∀ ip cfg', lookupAssoc df'.clients ip = some cfg' →
      listName ∉ refsOfKind listType cfg' ∧
      ∃ cfg, lookupAssoc df.clients ip = some cfg ∧
        cfg'.mode = cfg.mode ∧
        refsOfOther listType cfg' = refsOfOther listType cfg ∧
        refsOfKind listType cfg' =
          removeFromSlice (refsOfKind listType cfg) listName) ∧
    (saved = true ↔ ∃ c ∈ df.clients, listName ∈ refsOfKind listType c.2) := by
  have main : df'.clients = (repairClients df.clients listName listType).1 ∧
      saved = (repairClients df.clients listName listType).2 ∧
      (listType = "blocklist" ∨ listType = "whitelist") := by
    by_cases hb : listType = "blocklist"
    · subst hb
      simp only [deleteList, if_pos rfl] at h
      cases hbl : lookupAssoc df.blocklistTries listName with
      | none => rw [hbl] at h; exact absurd h (by simp)
      | some t =>
        rw [hbl] at h
        have hpair := Except.ok.inj h
        have hdf : df' = ⟨removeAssoc df.blocklistTries listName,
            df.whitelistTries, (repairClients df.clients listName "blocklist").1⟩ :=
          (congrArg Prod.fst hpair).symm
        have hsv : saved = (repairClients df.clients listName "blocklist").2 :=
          (congrArg Prod.snd hpair).symm
        exact ⟨by rw [hdf], hsv, Or.inl rfl⟩
    · by_cases hw : listType = "whitelist"
      · subst hw
        rw [deleteList, if_neg (show ¬ ("whitelist" = "blocklist") by decide),
          if_pos rfl] at h
        cases hwl : lookupAssoc df.whitelistTries listName with
        | none => rw [hwl] at h; exact absurd h (by simp)
        | some t =>
          rw [hwl] at h
          have hpair := Except.ok.inj h
          have hdf : df' = ⟨df.blocklistTries,
              removeAssoc df.whitelistTries listName,
              (repairClients df.clients listName "whitelist").1⟩ :=
            (congrArg Prod.fst hpair).symm
          have hsv : saved = (repairClients df.clients listName "whitelist").2 :=
            (congrArg Prod.snd hpair).symm
          exact ⟨by rw [hdf], hsv, Or.inr rfl⟩
      · simp [deleteList, hb, hw] at h
  obtain ⟨hcl, hs, hkinds⟩ := main
  constructor
  · intro ip cfg' hlk
    rw [hcl, repairClients_fst, lookupAssoc_map_value] at hlk
    cases hc : lookupAssoc df.clients ip with
    | none => rw [hc] at hlk; exact absurd hlk (by simp)
    | some cfg =>
      rw [hc] at hlk
      simp only [Option.map_some', Option.some.injEq] at hlk
      subst hlk
      obtain ⟨bl, wl, md⟩ := cfg
      rcases hkinds with rfl | rfl
      · constructor
        · simpa [repairTransform, refsOfKind] using
            not_mem_removeFromSlice bl listName
        · exact ⟨⟨bl, wl, md⟩, rfl, rfl, rfl, rfl⟩
      · constructor
        · simpa [repairTransform, refsOfKind] using
            not_mem_removeFromSlice wl listName
        · exact ⟨⟨bl, wl, md⟩, rfl, rfl, rfl, rfl⟩
  · rw [hs, repairClients_snd, List.any_eq_true]
    rcases hkinds with rfl | rfl
    · simp [refsOfKind]
    · simp [refsOfKind]

/-- Witness for C7: deleting blocklist `x` strips it from the one client
that referenced it. -/
theorem c7_witness :
    "x" ∉ refsOfKind "blocklist" (⟨[], ["w"], "blocklist"⟩ : ClientConfig) := by
  have h := c7_delete_list_repairs_clients
    ⟨[("x", newNode)], [], [("10.0.0.1", ⟨["x"], ["w"], "blocklist"⟩)]⟩
    "x" "blocklist"
    ⟨[], [], [("10.0.0.1", ⟨[], ["w"], "blocklist"⟩)]⟩ true rfl
  exact (h.1 "10.0.0.1" ⟨[], ["w"], "blocklist"⟩ rfl).1

theorem removeDomainsLoop_snd (bases : List String) (entries : List String)
    (n : Node) (acc : List String) :
    (removeDomainsLoop bases entries (n, acc)).2 =
      acc ++ entries.filter
        (fun e => decide ((parseDomainWithExceptions e).1 ∉ bases)) := by
  induction entries generalizing n acc with
  | nil => simp [removeDomainsLoop]
  | cons e rest ih =>
    by_cases hm : (parseDomainWithExceptions e).1 ∈ bases
    · rw [removeDomainsLoop]
      simp only [if_pos hm]
      rw [ih]
      simp [List.filter_cons, hm]
    · rw [removeDomainsLoop]
      simp only [if_neg hm]
      rw [ih]
      simp [List.filter_cons, hm]

/-- C9: `RemoveDomains` removes by base domain only: an enumerated entry is
dropped exactly when its base domain occurs among the base domains of the
request entries (the exceptions on either side are ignored), every other
entry is retained verbatim (its exceptions included), and nothing else ends
up in the saved list. -/
theorem c9_remove_by_base_domain (df : DNSFilter) (listName listType : String)
    (domains : List String) (df' : DNSFilter) (saved : List String)
    (trie : Node)
    (hlk : lookupTrieOfKind df listType listName = some trie)
    (h : removeDomains df listName listType domains = .ok (df', saved)) :
    (∀ e ∈ extractDomainsFromTrie trie [],
      (parseDomainWithExceptions e).1 ∈
        domains.map (fun d => (parseDomainWithExceptions d).1) → e ∉ saved) ∧
    (∀ e ∈ extractDomainsFromTrie trie [],
      (parseDomainWithExceptions e).1 ∉
        domains.map (fun d => (parseDomainWithExceptions d).1) → e ∈ saved) ∧
    (∀ e ∈ saved, e ∈ extractDomainsFromTrie trie []) := by
  have hsaved : saved =
      (extractDomainsFromTrie trie []).filter
        (fun e => decide ((parseDomainWithExceptions e).1 ∉
          domains.map (fun d => (parseDomainWithExceptions d).1))) := by
    by_cases hb : listType = "blocklist"
    · subst hb
      unfold lookupTrieOfKind at hlk
      rw [if_pos rfl] at hlk
      rw [removeDomains] at h
      rw [if_pos rfl] at h
      rw [hlk] at h
      simp only [Except.ok.injEq, Prod.mk.injEq] at h
      obtain ⟨-, hsv⟩ := h
      rw [← hsv, removeDomainsLoop_snd]
      simp
    · by_cases hw : listType = "whitelist"
      · subst hw
        unfold lookupTrieOfKind at hlk
        rw [if_neg (show ¬ ("whitelist" = "blocklist") by decide),
          if_pos rfl] at hlk
        rw [removeDomains] at h
        rw [if_neg (show ¬ ("whitelist" = "blocklist") by decide),
          if_pos rfl] at h
        rw [hlk] at h
        simp only [Except.ok.injEq, Prod.mk.injEq] at h
        obtain ⟨-, hsv⟩ := h
        rw [← hsv, removeDomainsLoop_snd]
        simp
      · simp [lookupTrieOfKind, hb, hw] at hlk
  subst hsaved
  refine ⟨?_, ?_, ?_⟩
  · intro e he hbase hmem
    have := List.of_mem_filter hmem
    simp only [decide_eq_true_eq] at this
    exact this hbase
  · intro e he hbase
    exact List.mem_filter.mpr ⟨he, by simpa using hbase⟩
  · intro e he
    exact List.mem_of_mem_filter he

/-- C3 counterexample: against the trie of the well-formed entry `foo.com`,
the query `.foo.com` — whose label sequence *begins* with an empty label —
matches: after descending `com`, `foo` the endpoint is reached and the next
label `""` is not among the exceptions, so `Match` returns true, refuting
the claim for label sequences that begin (rather than end) with an empty
label. -/
theorem c3_counterexample :
    (∀ l ∈ splitChar '.' (lowerStr "foo.com"), l ≠ "") ∧
    (splitChar '.' (lowerStr ".foo.com")).head? = some "" ∧
    isDomainBlocked (insertEntries newNode [("foo.com", [])]) ".foo.com" = true := by
  refine ⟨by decide, by decide, by decide⟩

theorem childKey_insertParts {n : Node} {ps excs : List String}
    {k : String} {c : Node}
    (h : (k, c) ∈ (insertParts n ps excs).children) :
    (∃ c0, (k, c0) ∈ n.children) ∨ ps.head? = some k := by
  cases ps with
  | nil =>
    simp only [insertParts, Node.children] at h
    exact .inl ⟨c, h⟩
  | cons p rest =>
    simp only [insertParts, Node.children] at h
    rcases mem_setChild h with heq | hmem
    · right
      rw [(Prod.mk.injEq _ _ _ _).mp heq |>.1]
      rfl
    · exact .inl ⟨c, hmem⟩

theorem childKey_insertEntries {entries : List (String × List String)}
    {n : Node} {k : String} {c : Node}
    (h : (k, c) ∈ (insertEntries n entries).children) :
    (∃ c0, (k, c0) ∈ n.children) ∨
      ∃ e ∈ entries, (reverseDomainParts e.1).head? = some k := by
  induction entries generalizing n with
  | nil => exact .inl ⟨c, h⟩
  | cons e es ih =>
    have h2 : (k, c) ∈ (insertEntries (insertDomain n e.1 e.2) es).children := by
      simpa [insertEntries] using h
    rcases ih h2 with ⟨c0, hc0⟩ | ⟨e2, he2, hh⟩
    · rcases childKey_insertParts hc0 with hin | hhd
      · exact .inl hin
      · exact .inr ⟨e, List.mem_cons_self _ _, hhd⟩
    · exact .inr ⟨e2, List.mem_cons_of_mem _ he2, hh⟩

/-- A trie built from entries whose labels are all non-empty never matches a
query whose (case-folded) label sequence ends with the empty label. -/
theorem isDomainBlocked_trailing_empty
    (entries : List (String × List String))
    (hent : ∀ e ∈ entries, ∀ l ∈ splitChar '.' (lowerStr e.1), l ≠ "")
    (q : String) (hq : (splitChar '.' (lowerStr q)).getLast? = some "") :
    isDomainBlocked (insertEntries newNode entries) q = false := by
  unfold isDomainBlocked reverseDomainParts
  have hhead : ((splitChar '.' (lowerStr q)).reverse).head? = some "" := by
    rw [List.head?_reverse]
    exact hq
  cases hrev : (splitChar '.' (lowerStr q)).reverse with
  | nil => simp [matchParts]
  | cons p rest =>
    rw [hrev] at hhead
    simp only [List.head?_cons, Option.some.injEq] at hhead
    subst hhead
    cases hfc : findChild (insertEntries newNode entries).children "" with
    | none => simp [matchParts, hfc]
    | some v =>
      exfalso
      have hmem := findChild_mem hfc
      rcases childKey_insertEntries hmem with ⟨c0, hc0⟩ | ⟨e, he, hhd⟩
      · simp [newNode, Node.children] at hc0
      · rw [reverseDomainParts, List.head?_reverse] at hhd
        have hx : ("" : String) ∈ (splitChar '.' (lowerStr e.1)).getLast? :=
          Option.mem_def.mpr hhd
        obtain ⟨hne, heq⟩ := List.mem_getLast?_eq_getLast hx
        refine hent e he "" ?_ rfl
        rw [heq]
        exact List.getLast_mem hne

theorem checkBlocklistRefs_of_no_match (refs : List String)
    (tries : List (String × Node)) (domain : String)
    (h : ∀ n ∈ refs, ∀ t, lookupAssoc tries n = some t →
      isDomainBlocked t domain = false) :
    checkBlocklistRefs refs tries domain = true := by
  induction refs with
  | nil => rfl
  | cons n rest ih =>
    rw [checkBlocklistRefs]
    cases hl : lookupAssoc tries n with
    | none => exact ih (fun m hm => h m (List.mem_cons_of_mem _ hm))
    | some t =>
      have hb := h n (List.mem_cons_self _ _) t hl
      simp only [hb, Bool.false_eq_true, if_false]
      exact ih (fun m hm => h m (List.mem_cons_of_mem _ hm))

/-- C3 (amended): for a trie built only from entries with non-empty labels,
`Match` returns false on every query whose case-folded label sequence *ends*
with an empty label — in particular on every fully-qualified DNS name with a
trailing dot, the form the DNS handler shim passes to `CheckDomain` — and
consequently a blocklist-mode client whose referenced tries are all built
from such entries is always allowed on such queries.  (A query whose label
sequence merely *begins* with an empty label can still match.) -/
theorem c3_amended_trailing_empty_label
    (entries : List (String × List String))
    (hent : ∀ e ∈ entries, ∀ l ∈ splitChar '.' (lowerStr e.1), l ≠ "")
    (q : String)
    (hq : (splitChar '.' (lowerStr q)).getLast? = some "")
    (df : DNSFilter) (ip : String) (cfg : ClientConfig)
    (hip : lookupAssoc df.clients ip = some cfg)
    (hmode : cfg.mode = "blocklist")
    (htries : ∀ nm ∈ cfg.blocklistRefs, ∀ t,
      lookupAssoc df.blocklistTries nm = some t →
      ∃ es, (∀ e ∈ es, ∀ l ∈ splitChar '.' (lowerStr e.1), l ≠ "") ∧
        t = insertEntries newNode es) :
    isDomainBlocked (insertEntries newNode entries) q = false ∧
    checkDomain df ip q = true := by
  refine ⟨isDomainBlocked_trailing_empty entries hent q hq, ?_⟩
  rw [show checkDomain df ip q =
      checkBlocklistRefs cfg.blocklistRefs df.blocklistTries q by
    simp [checkDomain, hip, hmode]]
  refine checkBlocklistRefs_of_no_match _ _ _ ?_
  intro nm hnm t ht
  obtain ⟨es, hes, rfl⟩ := htries nm hnm t ht
  exact isDomainBlocked_trailing_empty es hes q hq

/-- Witness for the amended C3: the FQDN query `foo.com.` neither matches
the `foo.com` trie nor gets denied for a blocklist-mode client. -/
theorem c3_amended_witness :
    isDomainBlocked (insertEntries newNode [("foo.com", [])]) "foo.com." = false ∧
    checkDomain ⟨[("b", insertEntries newNode [("foo.com", [])])], [],
      [("1.1.1.1", ⟨["b"], [], "blocklist"⟩)]⟩ "1.1.1.1" "foo.com." = true := by
  refine c3_amended_trailing_empty_label [("foo.com", [])] (by decide) "foo.com."
    (by decide) _ "1.1.1.1" ⟨["b"], [], "blocklist"⟩ rfl rfl ?_
  intro nm hnm t ht
  simp only [List.mem_singleton] at hnm
  subst hnm
  rw [show lookupAssoc [("b", insertEntries newNode [("foo.com", [])])] "b" =
    some (insertEntries newNode [("foo.com", [])]) from rfl] at ht
  exact ⟨[("foo.com", [])], by decide, (Option.some.inj ht).symm⟩

theorem formatDomainWithExceptions_ite (d : String) (xs : List String) :
    (if xs.length > 0 then formatDomainWithExceptions d xs else d) =
      formatDomainWithExceptions d xs := by
  cases xs <;> simp [formatDomainWithExceptions]

theorem addExceptions_append :
    ∀ (excs acc : List String), excs.Nodup → (∀ e ∈ excs, e ∉ acc) →
      addExceptions acc excs = acc ++ excs
  | [], acc, _, _ => by simp [addExceptions]
  | e :: rest, acc, hnd, hdisj => by
    obtain ⟨hhd, htl⟩ := List.nodup_cons.mp hnd
    have hne : e ∉ acc := hdisj e (List.mem_cons_self _ _)
    simp only [addExceptions, List.foldl_cons, if_neg hne]
    have h2 := addExceptions_append rest (acc ++ [e]) htl
      (by
        intro x hx
        simp only [List.mem_append, List.mem_singleton]
        rintro (hxa | rfl)
        · exact hdisj x (List.mem_cons_of_mem _ hx) hxa
        · exact hhd hx)
    simp only [addExceptions] at h2
    rw [h2]
    simp

theorem addExceptions_nil (excs : List String) (hnd : excs.Nodup) :
    addExceptions [] excs = excs := by
  simpa using addExceptions_append excs [] hnd (by simp)

theorem endpointAt_newNode (ps : List String) : endpointAt newNode ps = false := by
  cases ps <;> rfl

theorem findChild_setChild_self (cs : List (String × Node)) (k : String)
    (v : Node) : findChild (setChild cs k v) k = some v := by
  induction cs with
  | nil => simp [setChild, findChild]
  | cons hd tl ih =>
    obtain ⟨k0, v0⟩ := hd
    by_cases hk : k0 = k
    · simp [setChild, hk, findChild]
    · simp [setChild, hk, findChild, ih]

theorem findChild_setChild_other (cs : List (String × Node)) (k k2 : String)
    (v : Node) (h : k2 ≠ k) :
    findChild (setChild cs k v) k2 = findChild cs k2 := by
  have h2 : ¬ (k = k2) := fun he => h he.symm
  induction cs with
  | nil => simp [setChild, findChild, h2]
  | cons hd tl ih =>
    obtain ⟨k0, v0⟩ := hd
    by_cases hk : k0 = k
    · subst hk
      simp [setChild, findChild, h2]
    · simp [setChild, hk, findChild, ih]

theorem setChild_of_not_found (cs : List (String × Node)) (k : String)
    (v : Node) (h : findChild cs k = none) :
    setChild cs k v = cs ++ [(k, v)] := by
  induction cs with
  | nil => rfl
  | cons hd tl ih =>
    obtain ⟨k0, v0⟩ := hd
    by_cases hk : k0 = k
    · simp [findChild, hk] at h
    · simp only [findChild, if_neg hk] at h
      simp [setChild, hk, ih h]

theorem findChild_some_decomp (cs : List (String × Node)) (k : String)
    (v : Node) (h : findChild cs k = some v) :
    ∃ l1 l2, cs = l1 ++ (k, v) :: l2 ∧
      ∀ w, setChild cs k w = l1 ++ (k, w) :: l2 := by
  induction cs with
  | nil => simp [findChild] at h
  | cons hd tl ih =>
    obtain ⟨k0, v0⟩ := hd
    by_cases hk : k0 = k
    · subst hk
      have h2 : v0 = v := by
        rw [show findChild ((k0, v0) :: tl) k0 = some v0 from by
          simp [findChild]] at h
        exact Option.some.inj h
      subst h2
      exact ⟨[], tl, rfl, fun w => by simp [setChild]⟩
    · simp only [findChild, if_neg hk] at h
      obtain ⟨l1, l2, hcs, hset⟩ := ih h
      refine ⟨(k0, v0) :: l1, l2, by rw [hcs]; rfl, fun w => ?_⟩
      simp [setChild, hk, hset w]

theorem extractChildren_append (u v : List (String × Node)) (pre : List String) :
    extractChildren (u ++ v) pre =
      extractChildren u pre ++ extractChildren v pre := by
  induction u with
  | nil => simp [extractChildren]
  | cons hd tl ih =>
    obtain ⟨p, c⟩ := hd
    simp [extractChildren, ih]

theorem extract_newNode (pre : List String) :
    extractDomainsFromTrie newNode pre = [] := rfl

theorem endpointAt_insertParts_ne (ps : List String) :
    ∀ (n : Node) (qs excs : List String), qs ≠ ps →
      endpointAt (insertParts n ps excs) qs = endpointAt n qs := by
  induction ps with
  | nil =>
    intro n qs excs h
    cases qs with
    | nil => exact absurd rfl h
    | cons q qr =>
      cases n with
      | mk cs e xs => rfl
  | cons p pr ih =>
    intro n qs excs h
    cases n with
    | mk cs e xs =>
      cases qs with
      | nil => rfl
      | cons q qr =>
        by_cases hq : q = p
        · subst hq
          have hqr : qr ≠ pr := fun he => h (by rw [he])
          show (match findChild (setChild cs q _) q with
            | none => false
            | some c => endpointAt c qr) = _
          rw [findChild_setChild_self]
          cases hfc : findChild cs q with
          | none =>
            show endpointAt (insertParts ((findChild cs q).getD newNode) pr excs) qr = _
            rw [hfc]
            show endpointAt (insertParts newNode pr excs) qr = _
            rw [ih newNode qr excs hqr, endpointAt_newNode]
            show false = (match findChild cs q with
              | none => false
              | some c => endpointAt c qr)
            rw [hfc]
          | some c0 =>
            show endpointAt (insertParts ((findChild cs q).getD newNode) pr excs) qr = _
            rw [hfc]
            show endpointAt (insertParts c0 pr excs) qr = _
            rw [ih c0 qr excs hqr]
            show endpointAt c0 qr = (match findChild cs q with
              | none => false
              | some c => endpointAt c qr)
            rw [hfc]
        · show (match findChild (setChild cs p _) q with
            | none => false
            | some c => endpointAt c qr) = _
          rw [findChild_setChild_other _ _ _ _ hq]
          rfl

/-- Inserting a path that does not yet end at an endpoint adds exactly one
entry to the enumeration (as a multiset): the formatted entry of the
inserted path with its exceptions. -/
theorem extract_insertParts (ps : List String) :
    ∀ (n : Node) (excs pre : List String), AllNodes excOnEndpoint n →
      endpointAt n ps = false → excs.Nodup →
      (↑(extractDomainsFromTrie (insertParts n ps excs) pre) : Multiset String) =
        ↑(extractDomainsFromTrie n pre) +
          {formatDomainWithExceptions (joinDot (pre ++ ps).reverse) excs} := by
  induction ps with
  | nil =>
    intro n excs pre hinv hep hnd
    cases n with
    | mk cs e xs =>
      have he : e = false := hep
      subst he
      have hxs : xs = [] := by
        by_contra hxe
        have h2 := hinv.self hxe
        simp [Node.isEndpoint] at h2
      subst hxs
      rw [show insertParts (Node.mk cs false []) [] excs =
          Node.mk cs true excs from by
        simp [insertParts, Node.children, Node.exceptions,
          addExceptions_nil excs hnd]]
      simp only [extractDomainsFromTrie, if_true, Bool.false_eq_true, if_false,
        List.append_nil, List.nil_append]
      rw [formatDomainWithExceptions_ite,
        ← Multiset.coe_singleton
          (formatDomainWithExceptions (joinDot pre.reverse) excs),
        Multiset.coe_add, Multiset.coe_eq_coe]
      exact List.perm_append_comm
  | cons p pr ih =>
    intro n excs pre hinv hep hnd
    cases n with
    | mk cs e xs =>
      cases hfc : findChild cs p with
      | none =>
        have hsc := setChild_of_not_found cs p (insertParts newNode pr excs) hfc
        rw [show insertParts (Node.mk cs e xs) (p :: pr) excs =
            Node.mk (cs ++ [(p, insertParts newNode pr excs)]) e xs from by
          simp [insertParts, Node.children, Node.isEndpoint, Node.exceptions,
            hfc, hsc]]
        have hih := ih newNode excs (pre ++ [p])
          allNodes_excOnEndpoint_newNode (endpointAt_newNode pr) hnd
        rw [extract_newNode] at hih
        simp only [List.append_assoc, List.singleton_append] at hih
        simp only [extractDomainsFromTrie, extractChildren_append,
          extractChildren, List.append_nil]
        rw [← Multiset.coe_add, ← Multiset.coe_add, ← Multiset.coe_add, hih]
        simp only [Multiset.coe_nil, zero_add]
        abel
      | some c0 =>
        have hepc : endpointAt c0 pr = false := by
          simpa [endpointAt, Node.children, hfc] using hep
        obtain ⟨l1, l2, hcs, hset⟩ := findChild_some_decomp cs p c0 hfc
        have hinvc : AllNodes excOnEndpoint c0 :=
          hinv.child (p, c0) (findChild_mem hfc)
        have hih := ih c0 excs (pre ++ [p]) hinvc hepc hnd
        simp only [List.append_assoc, List.singleton_append] at hih
        rw [show insertParts (Node.mk cs e xs) (p :: pr) excs =
            Node.mk (l1 ++ (p, insertParts c0 pr excs) :: l2) e xs from by
          simp [insertParts, Node.children, Node.isEndpoint, Node.exceptions,
            hfc, hset]]
        rw [show (Node.mk cs e xs) = Node.mk (l1 ++ (p, c0) :: l2) e xs from by
          rw [hcs]]
        simp only [extractDomainsFromTrie, extractChildren_append,
          extractChildren]
        rw [← Multiset.coe_add, ← Multiset.coe_add, ← Multiset.coe_add,
          ← Multiset.coe_add, ← Multiset.coe_add, ← Multiset.coe_add, hih]
        abel

theorem joinDot_reverse_reverseDomainParts (d : String) :
    joinDot (reverseDomainParts d).reverse = lowerStr d := by
  rw [reverseDomainParts, List.reverse_reverse, joinDot_splitChar]

/-- Inserting entries with pairwise-distinct paths into a trie appends
exactly their formatted lines (as a multiset) to the enumeration. -/
theorem extract_insertEntries (entries : List (String × List String)) :
    ∀ n : Node, AllNodes excOnEndpoint n →
      (∀ e ∈ entries, endpointAt n (reverseDomainParts e.1) = false) →
      (entries.map (fun e => reverseDomainParts e.1)).Nodup →
      (∀ e ∈ entries, e.2.Nodup) →
      (↑(extractDomainsFromTrie (insertEntries n entries) []) : Multiset String) =
        ↑(extractDomainsFromTrie n []) +
          ↑(entries.map (fun e =>
            formatDomainWithExceptions (lowerStr e.1) e.2)) := by
  induction entries with
  | nil =>
    intro n _ _ _ _
    simp [insertEntries]
  | cons e es ih =>
    intro n hinv hfresh hdist hnd
    have hstep : insertEntries n (e :: es) =
        insertEntries (insertDomain n e.1 e.2) es := by
      simp [insertEntries]
    rw [hstep]
    have hinv2 : AllNodes excOnEndpoint (insertDomain n e.1 e.2) :=
      allNodes_excOnEndpoint_insertParts _ _ _ hinv
    have hfresh2 : ∀ e2 ∈ es,
        endpointAt (insertDomain n e.1 e.2) (reverseDomainParts e2.1) = false := by
      intro e2 he2
      have hne : reverseDomainParts e2.1 ≠ reverseDomainParts e.1 := by
        intro hcontra
        have hmem2 := List.mem_map_of_mem
          (fun e2 : String × List String => reverseDomainParts e2.1) he2
        simp only at hmem2
        rw [hcontra] at hmem2
        exact (List.nodup_cons.mp hdist).1 hmem2
      rw [insertDomain, endpointAt_insertParts_ne _ _ _ _ hne]
      exact hfresh e2 (List.mem_cons_of_mem _ he2)
    have hdist2 : (es.map fun e2 => reverseDomainParts e2.1).Nodup :=
      (List.nodup_cons.mp hdist).2
    have hnd2 : ∀ e2 ∈ es, e2.2.Nodup :=
      fun e2 h2 => hnd e2 (List.mem_cons_of_mem _ h2)
    rw [ih _ hinv2 hfresh2 hdist2 hnd2]
    have hL1 := extract_insertParts (reverseDomainParts e.1) n e.2 []
      hinv (hfresh e (List.mem_cons_self _ _)) (hnd e (List.mem_cons_self _ _))
    rw [List.nil_append, joinDot_reverse_reverseDomainParts] at hL1
    rw [show insertDomain n e.1 e.2 =
      insertParts n (reverseDomainParts e.1) e.2 from rfl, hL1]
    simp only [List.map_cons]
    rw [← Multiset.cons_coe, ← Multiset.singleton_add]
    abel

/-- The read loop of `LoadDomainList` builds the same trie as inserting the
parsed entries of the non-comment lines into a fresh root. -/
theorem loadDomainList_eq_insertEntries (lines : List String) :
    loadDomainList lines = insertEntries newNode (parseFile lines) := by
  suffices h : ∀ root : Node,
      lines.foldl (fun root rawLine =>
        let line := trimSpace rawLine
        if line = "" || startsWithHash line then root
        else
          let p := parseDomainWithExceptions line
          insertDomain root p.1 p.2) root =
      insertEntries root (parseFile lines) from h newNode
  induction lines with
  | nil =>
    intro root
    rfl
  | cons l ls ih =>
    intro root
    simp only [List.foldl_cons, parseFile, List.filterMap_cons]
    by_cases hskip : (trimSpace l = "" || startsWithHash (trimSpace l)) = true
    · simp only [hskip, if_true]
      exact ih root
    · simp only [hskip, Bool.false_eq_true, if_false]
      rw [ih]
      simp [insertEntries, parseFile]

/-- C8 counterexample: on the list file with lines `A.com` and `a.com !x` —
one upper-case domain and two entries sharing a base domain after case
folding — the trie merges both entries into one endpoint, so the enumeration
has one entry while the parsed entry set has two: no reordering of entries
or exceptions makes them equal. -/
theorem c8_counterexample :
    parseFile ["A.com", "a.com !x"] = [("A.com", []), ("a.com", ["x"])] ∧
    extractDomainsFromTrie (loadDomainList ["A.com", "a.com !x"]) [] =
      ["a.com !x"] ∧
    (extractDomainsFromTrie (loadDomainList ["A.com", "a.com !x"]) []).length ≠
      (parseFile ["A.com", "a.com !x"]).length := by
  refine ⟨by decide, by decide, by decide⟩

/-- C8 (amended): for a list file whose parsed entries carry already
case-folded domains, pairwise-distinct base domains, and duplicate-free
exception lists, enumerating the trie built from the file yields exactly the
parsed entries (each printed back as `domain !e1, !e2, …`) up to the order
of entries; the auto-generated header lines are comments and never parsed. -/
theorem c8_amended_roundtrip (lines : List String)
    (hlow : ∀ e ∈ parseFile lines, lowerStr e.1 = e.1)
    (hdistinct : ((parseFile lines).map Prod.fst).Nodup)
    (hnd : ∀ e ∈ parseFile lines, e.2.Nodup) :
    List.Perm (extractDomainsFromTrie (loadDomainList lines) [])
      ((parseFile lines).map fun e =>
        formatDomainWithExceptions e.1 e.2) := by
  rw [← Multiset.coe_eq_coe, loadDomainList_eq_insertEntries]
  have hpaths : ((parseFile lines).map (fun e => reverseDomainParts e.1)).Nodup := by
    have hmm : (parseFile lines).map (fun e => reverseDomainParts e.1) =
        ((parseFile lines).map Prod.fst).map reverseDomainParts := by
      rw [List.map_map]
      rfl
    rw [hmm]
    refine List.Nodup.map_on ?_ hdistinct
    intro d1 h1 d2 h2 heq
    have hj : lowerStr d1 = lowerStr d2 := by
      have := congrArg (fun l => joinDot (List.reverse l)) heq
      simpa [reverseDomainParts, joinDot_splitChar] using this
    obtain ⟨e1, he1, rfl⟩ := List.mem_map.mp h1
    obtain ⟨e2, he2, rfl⟩ := List.mem_map.mp h2
    rw [← hlow e1 he1, ← hlow e2 he2]
    exact hj
  have hmain := extract_insertEntries (parseFile lines) newNode
    allNodes_excOnEndpoint_newNode
    (fun e _ => endpointAt_newNode _) hpaths hnd
  rw [hmain, extract_newNode]
  simp only [Multiset.coe_nil, zero_add, Multiset.coe_eq_coe]
  rw [List.map_congr_left (fun e he => by rw [hlow e he])]

/-- Witness for the amended C8 on a small well-formed list file. -/
theorem c8_roundtrip_witness :
    List.Perm
      (extractDomainsFromTrie
        (loadDomainList ["# c", "", "example.com !mail, !shop", "foo.org"]) [])
      ((parseFile ["# c", "", "example.com !mail, !shop", "foo.org"]).map
        fun e => formatDomainWithExceptions e.1 e.2) :=
  c8_amended_roundtrip ["# c", "", "example.com !mail, !shop", "foo.org"]
    (by decide) (by decide) (by decide)

/-- Witness for C9: removing `a.com !zzz` from the list holding
`a.com` and `b.com !x` drops `a.com` (despite the differing exceptions) and
keeps `b.com !x` verbatim. -/
theorem c9_witness :
    "a.com" ∉ (["b.com !x"] : List String) ∧
    "b.com !x" ∈ (["b.com !x"] : List String) := by
  have h := c9_remove_by_base_domain
    ⟨[("ads", buildTrie ["a.com", "b.com !x"])], [], []⟩ "ads" "blocklist"
    ["a.com !zzz"] ⟨[("ads", insertDomain newNode "b.com" ["x"])], [], []⟩
    ["b.com !x"] (buildTrie ["a.com", "b.com !x"]) rfl rfl
  exact ⟨h.1 "a.com" (by decide) (by decide), h.2.1 "b.com !x" (by decide) (by decide)⟩

end DnsLookup

